import Mathlib

/-!
Verification development for the HMC visualization sampler engine.

The definitions below are a shallow embedding of the JavaScript sources:
`src/utils/seededRandom.js` (Mulberry32 PRNG and Box-Muller),
`src/samplers/HMCSampler.js` (leapfrog integrator, HMC proposal and step,
the `HMCSampler` class), `src/utils/sliceSampler.js` (univariate slice
sampler), `src/samplers/GibbsSampler.js` (Gibbs-via-slice step) and
`src/utils/statistics.js` (Gelman-Rubin R-hat and effective sample size).

Machine floats are modelled by exact arithmetic: rationals where the
computation must be executable, reals where transcendental functions
(sqrt, log, cos, exp) matter.  Transcendental functions are passed as an
explicit `MathOps` record so that the same definitions serve both the
rational and the real instantiation.  A JavaScript RNG object is modelled
as the stream of values its `random()` method returns, read at increasing
indices.
-/

/-- A 2D point, used for positions and momenta `{x, y}` in the sources. -/
structure Pt (K : Type) where
  x : K
  y : K
  deriving Repr, DecidableEq

/-- Componentwise negation of a point, as in `{x: -p.x, y: -p.y}`. -/
def Pt.neg {K : Type} [Neg K] (p : Pt K) : Pt K := ⟨-p.x, -p.y⟩

/-- The transcendental functions of JavaScript `Math` that the samplers
use, abstracted so definitions stay executable over `ℚ` and can be
instantiated with the genuine real functions in theorems. -/
structure MathOps (K : Type) where
  sqrt : K → K
  log : K → K
  cos : K → K
  exp : K → K
  pi : K

/-! ### Seeded PRNG (`src/utils/seededRandom.js`)

The JavaScript class keeps `seed` and `state` fields; every bitwise
operation truncates to 32 bits, so the state is modelled as a natural
number taken modulo `2^32` at the additive update. -/

/-- The 32-bit modulus. -/
def UINT32 : ℕ := 4294967296

/-- The Mulberry32 additive constant `0x6D2B79F5`. -/
def MULBERRY_INC : ℕ := 0x6D2B79F5

/-- State of a `SeededRandom` instance: the remembered seed and the
current Mulberry32 state. -/
structure SeededRandom where
  seed : ℕ
  state : ℕ
  deriving Repr, DecidableEq

/-- The constructor `new SeededRandom(seed)`: both fields start at the
seed. -/
def SeededRandom.create (s : ℕ) : SeededRandom := ⟨s, s⟩

/-- The method `setSeed(seed)`: reset seed and state. -/
def SeededRandom.setSeed (_r : SeededRandom) (s : ℕ) : SeededRandom := ⟨s, s⟩

/-- The Mulberry32 output mix applied to the updated state `t`:
`t = Math.imul(t ^ (t >>> 15), t | 1)`,
`t ^= t + Math.imul(t ^ (t >>> 7), t | 61)`,
output `(t ^ (t >>> 14)) >>> 0`.  `Math.imul` is multiplication modulo
`2^32`; on the unsigned residues used here every JavaScript bitwise step
coincides with the corresponding operation on naturals below `2^32`. -/
def mulberryMix (t0 : ℕ) : ℕ :=
  let t1 := ((t0 ^^^ (t0 >>> 15)) * (t0 ||| 1)) % UINT32
  let t2 := t1 ^^^ ((t1 + ((t1 ^^^ (t1 >>> 7)) * (t1 ||| 61)) % UINT32) % UINT32)
  (t2 ^^^ (t2 >>> 14)) % UINT32

/-- The method `random()`: advance the state by the Mulberry32 increment
and return the mixed output scaled into `[0, 1)`. -/
def SeededRandom.random (r : SeededRandom) : ℚ × SeededRandom :=
  let st := (r.state + MULBERRY_INC) % UINT32
  ((mulberryMix st : ℚ) / (UINT32 : ℚ), ⟨r.seed, st⟩)

/-- The Box-Muller formula `sqrt(-2 ln u1) * cos(2 pi u2)` shared by
`SeededRandom.randn` and the standalone `randn` in `HMCSampler.js`. -/
def boxMuller {K : Type} [LinearOrderedField K] (ops : MathOps K)
    (u1 u2 : K) : K :=
  ops.sqrt (-2 * ops.log u1) * ops.cos (2 * ops.pi * u2)

/-- The method `randn()`: two `random()` draws fed to Box-Muller.  The
first draw `u1` is used directly, with no guard against zero. -/
def SeededRandom.randn (ops : MathOps ℚ) (r : SeededRandom) :
    ℚ × SeededRandom :=
  let d1 := r.random
  let d2 := d1.2.random
  (boxMuller ops d1.1 d2.1, d2.2)

/-- The pair `(u1, u2)` of uniform draws an invocation of `randn()`
consumes, together with the resulting generator state. -/
def SeededRandom.randnDraws (r : SeededRandom) : (ℚ × ℚ) × SeededRandom :=
  let d1 := r.random
  let d2 := d1.2.random
  ((d1.1, d2.1), d2.2)

/-- The k-th output of repeated `random()` calls starting from state
`r` (k = 0 is the first call). -/
def SeededRandom.randomN (r : SeededRandom) : ℕ → ℚ
  | 0 => r.random.1
  | k + 1 => SeededRandom.randomN r.random.2 k

/-- The k-th output of repeated `randn()` calls starting from state `r`. -/
def SeededRandom.randnN (ops : MathOps ℚ) (r : SeededRandom) : ℕ → ℚ
  | 0 => (r.randn ops).1
  | k + 1 => SeededRandom.randnN ops (r.randn ops).2 k

/-- The stream of `random()` outputs of a generator freshly seeded with
`s`; this is how a sampler owning `new SeededRandom(s)` reads uniforms. -/
def seedStream (s : ℕ) : ℕ → ℚ :=
  fun k => (SeededRandom.create s).randomN k

/-! ### Leapfrog integrator and HMC step (`src/samplers/HMCSampler.js`) -/

/-- A step result `{q, p, accepted, trajectory}` as returned by
`hmcStep` and `GibbsSampler.step`. -/
structure StepResult (K : Type) where
  q : Pt K
  p : Pt K
  accepted : Bool
  trajectory : List (Pt K)
  deriving Repr, DecidableEq

/-- The value returned by `generateProposal`. -/
structure Proposal (K : Type) where
  q_proposed : Pt K
  p_proposed : Pt K
  H_initial : K
  H_proposed : K
  trajectory : List (Pt K)

/-- The standalone helper `randn(rng)` of `HMCSampler.js`, applied to
the two uniforms it draws. -/
def randn {K : Type} [LinearOrderedField K] (ops : MathOps K)
    (u1 u2 : K) : K :=
  boxMuller ops u1 u2

/-- One leapfrog step: half-step momentum, full-step position, half-step
momentum with the gradient at the new position (`leapfrogStep`). -/
def leapfrogStep {K : Type} [LinearOrderedField K] (q p : Pt K)
    (epsilon : K) (gradU : K → K → Pt K) : Pt K × Pt K :=
  let grad := gradU q.x q.y
  let p_half : Pt K := ⟨p.x - (epsilon / 2) * grad.x, p.y - (epsilon / 2) * grad.y⟩
  let q_new : Pt K := ⟨q.x + epsilon * p_half.x, q.y + epsilon * p_half.y⟩
  let grad_new := gradU q_new.x q_new.y
  let p_new : Pt K := ⟨p_half.x - (epsilon / 2) * grad_new.x,
                       p_half.y - (epsilon / 2) * grad_new.y⟩
  (q_new, p_new)

/-- The `for (let i = 0; i < L; i++)` loop of `generateProposal`:
iterate `leapfrogStep` `L` times from `(q, p)`, collecting each
post-step position in order.  Returns (final position, final momentum,
recorded positions). -/
def simulate {K : Type} [LinearOrderedField K] (epsilon : K)
    (gradU : K → K → Pt K) : ℕ → Pt K → Pt K → Pt K × Pt K × List (Pt K)
  | 0, q, p => (q, p, [])
  | i + 1, q, p =>
    let result := leapfrogStep q p epsilon gradU
    let rest := simulate epsilon gradU i result.1 result.2
    (rest.1, rest.2.1, result.1 :: rest.2.2)

/-- Plain iteration of `leapfrogStep` (the dynamics of `simulate`
without the trajectory bookkeeping), used to state reversibility. -/
def leapfrogIter {K : Type} [LinearOrderedField K] (epsilon : K)
    (gradU : K → K → Pt K) : ℕ → Pt K × Pt K → Pt K × Pt K
  | 0, s => s
  | n + 1, s => leapfrogStep (leapfrogIter epsilon gradU n s).1
      (leapfrogIter epsilon gradU n s).2 epsilon gradU

/-- Negate the momentum component of a phase-space point. -/
def negMom {K : Type} [Neg K] (s : Pt K × Pt K) : Pt K × Pt K :=
  (s.1, s.2.neg)

/-- The function `generateProposal(q, epsilon, L, U, gradU, rng)`:
sample a momentum with two `randn` calls (uniform draws at stream
indices 0-3), compute the initial Hamiltonian, run `L` leapfrog steps
recording the trajectory (start point included), negate the final
momentum and compute the proposed Hamiltonian. -/
def generateProposal {K : Type} [LinearOrderedField K] (ops : MathOps K)
    (q : Pt K) (epsilon : K) (L : ℕ) (U : K → K → K)
    (gradU : K → K → Pt K) (rng : ℕ → K) : Proposal K :=
  let p_initial : Pt K := ⟨randn ops (rng 0) (rng 1), randn ops (rng 2) (rng 3)⟩
  let K_initial := 1 / 2 * (p_initial.x * p_initial.x + p_initial.y * p_initial.y)
  let U_initial := U q.x q.y
  let H_initial := K_initial + U_initial
  let sim := simulate epsilon gradU L q p_initial
  let q_proposed := sim.1
  let p_proposed : Pt K := ⟨-sim.2.1.x, -sim.2.1.y⟩
  let K_proposed := 1 / 2 * (p_proposed.x * p_proposed.x + p_proposed.y * p_proposed.y)
  let U_proposed := U q_proposed.x q_proposed.y
  let H_proposed := K_proposed + U_proposed
  ⟨q_proposed, p_proposed, H_initial, H_proposed, q :: sim.2.2⟩

/-- The function `hmcStep(q, epsilon, L, U, gradU, rng)`: Metropolis
acceptance with probability `min(1, exp(-deltaH))` against the uniform
draw at stream index 4 (the fifth draw of the step). -/
def hmcStep {K : Type} [LinearOrderedField K] (ops : MathOps K)
    (q : Pt K) (epsilon : K) (L : ℕ) (U : K → K → K)
    (gradU : K → K → Pt K) (rng : ℕ → K) : StepResult K :=
  let proposal := generateProposal ops q epsilon L U gradU rng
  let deltaH := proposal.H_proposed - proposal.H_initial
  let acceptProb := min 1 (ops.exp (-deltaH))
  let accepted : Bool := decide (rng 4 < acceptProb)
  if accepted then
    ⟨proposal.q_proposed, proposal.p_proposed, true, proposal.trajectory⟩
  else
    ⟨q, ⟨0, 0⟩, false, proposal.trajectory⟩

/-- Drop the first `k` values of an RNG stream (the values a completed
call consumed). -/
def shift {K : Type} (rng : ℕ → K) (k : ℕ) : ℕ → K :=
  fun n => rng (n + k)

/-- Run `n` consecutive HMC steps, each starting from the `q` returned
by the previous one and consuming five fresh uniform draws, as the
sampler instance does when the controller drives a run. -/
def hmcChain {K : Type} [LinearOrderedField K] (ops : MathOps K)
    (epsilon : K) (L : ℕ) (U : K → K → K) (gradU : K → K → Pt K) :
    Pt K → (ℕ → K) → ℕ → List (StepResult K)
  | _, _, 0 => []
  | q, rng, n + 1 =>
    let r := hmcStep ops q epsilon L U gradU rng
    r :: hmcChain ops epsilon L U gradU r.q (shift rng 5) n

/-- An HMC run whose uniforms come from a fresh `SeededRandom` seeded
with `s`, as in `new HMCSampler(params, seed)` followed by `n` steps. -/
def hmcChainSeeded (ops : MathOps ℚ) (epsilon : ℚ) (L : ℕ)
    (U : ℚ → ℚ → ℚ) (gradU : ℚ → ℚ → Pt ℚ) (q0 : Pt ℚ) (s : ℕ)
    (n : ℕ) : List (StepResult ℚ) :=
  hmcChain ops epsilon L U gradU q0 (seedStream s) n

/-! ### The `HMCSampler` class hyperparameters -/

/-- The `params` object accepted by the `HMCSampler` constructor and
`setParams`; `none` models an absent (`undefined`) property. -/
structure HMCParams where
  epsilon : Option ℚ
  L : Option ℚ

/-- JavaScript `value || dflt` for an optional numeric property: absent
and zero are falsy, every other rational is truthy. -/
def jsOrDefault (v : Option ℚ) (dflt : ℚ) : ℚ :=
  match v with
  | none => dflt
  | some x => if x = 0 then dflt else x

/-- The hyperparameter state of an `HMCSampler` instance. -/
structure HMCSampler where
  epsilon : ℚ
  L : ℚ
  rng : Option SeededRandom

/-- The constructor `new HMCSampler(params, seed)`:
`this.epsilon = params.epsilon || 0.1`, `this.L = params.L || 10`, and
`BaseSampler` installs `new SeededRandom(seed)` when the seed is not
null. -/
def HMCSampler.create (params : HMCParams) (seed : Option ℕ) : HMCSampler :=
  ⟨jsOrDefault params.epsilon (1 / 10), jsOrDefault params.L 10,
   seed.map SeededRandom.create⟩

/-- The method `setParams(params)`: assign each property that is not
`undefined`, including an explicit zero. -/
def HMCSampler.setParams (smp : HMCSampler) (params : HMCParams) : HMCSampler :=
  { smp with
    epsilon := match params.epsilon with | some e => e | none => smp.epsilon
    L := match params.L with | some l => l | none => smp.L }

/-! ### Slice sampler (`src/utils/sliceSampler.js`) and Gibbs step
(`src/samplers/GibbsSampler.js`)

The RNG cursor is threaded explicitly: each function takes the stream
and the index of the next unread value, and reports the index it
stopped at, so a second call can continue where the first one left
off (the JavaScript object advances its internal state instead). -/

/-- The slice level `logY = logP(x0) - e` with `e = -ln(1 - random())`
drawn at stream index 0. -/
def sliceLogY {K : Type} [LinearOrderedField K] (ops : MathOps K)
    (logDensityFn : K → K) (x0 : K) (rng : ℕ → K) : K :=
  logDensityFn x0 - (-(ops.log (1 - rng 0)))

/-- The first stepping-out loop,
`while (steps < MAX_STEPS && logDensityFn(L) > logY) { L -= w; steps++ }`,
modelled with the remaining iteration budget as fuel.  Returns the
final left endpoint and the number of iterations executed. -/
def stepOutDown {K : Type} [LinearOrderedField K] (logDensityFn : K → K)
    (logY w : K) : ℕ → K → K × ℕ
  | 0, l => (l, 0)
  | fuel + 1, l =>
    if logDensityFn l > logY then
      let r := stepOutDown logDensityFn logY w fuel (l - w)
      (r.1, r.2 + 1)
    else (l, 0)

/-- The second stepping-out loop, expanding the right endpoint by
`R += w`. -/
def stepOutUp {K : Type} [LinearOrderedField K] (logDensityFn : K → K)
    (logY w : K) : ℕ → K → K × ℕ
  | 0, r => (r, 0)
  | fuel + 1, r =>
    if logDensityFn r > logY then
      let s := stepOutUp logDensityFn logY w fuel (r + w)
      (s.1, s.2 + 1)
    else (r, 0)

/-- The shrinkage loop: draw `x1 = L + random() * (R - L)`, accept when
`logP(x1) >= logY`, otherwise shrink the side `x1` falls on.  Fuel is
the remaining iteration budget (`MAX_SHRINK_STEPS` at the start);
returns `none` when the budget is exhausted, and the index of the next
unread stream value. -/
def shrink {K : Type} [LinearOrderedField K] (logDensityFn : K → K)
    (logY x0 : K) (rng : ℕ → K) : ℕ → K → K → ℕ → Option K × ℕ
  | 0, _, _, i => (none, i)
  | fuel + 1, l, r, i =>
    let x1 := l + rng i * (r - l)
    if logDensityFn x1 ≥ logY then (some x1, i + 1)
    else if x1 < x0 then shrink logDensityFn logY x0 rng fuel x1 r (i + 1)
    else shrink logDensityFn logY x0 rng fuel l x1 (i + 1)

/-- The function `sampleSlice(logDensityFn, x0, w, rng)`: level, initial
interval `[x0 - u, x0 + (w - u)]` with `u = random() * w` (stream index
1), stepping out capped at 100 iterations per direction, shrinkage
capped at 1000 iterations falling back to `x0`.  Returns the new sample
together with the index of the next unread stream value. -/
def sampleSlice {K : Type} [LinearOrderedField K] (ops : MathOps K)
    (logDensityFn : K → K) (x0 w : K) (rng : ℕ → K) : K × ℕ :=
  let logY := sliceLogY ops logDensityFn x0 rng
  let u := rng 1 * w
  let l0 := x0 - u
  let r0 := x0 + (w - u)
  let l1 := (stepOutDown logDensityFn logY w 100 l0).1
  let r1 := (stepOutUp logDensityFn logY w 100 r0).1
  match shrink logDensityFn logY x0 rng 1000 l1 r1 2 with
  | (some x1, i) => (x1, i)
  | (none, i) => (x0, i)

/-- The method `GibbsSampler.step`: slice-update `x` with `y` held at
its current value, then slice-update `y` with `x` held at the new
value; always accepted, zero momentum, 3-point Manhattan trajectory. -/
def GibbsSampler.step {K : Type} [LinearOrderedField K] (ops : MathOps K)
    (q : Pt K) (logP : K → K → K) (rng : ℕ → K) : StepResult K :=
  let sx := sampleSlice ops (fun x => logP x q.y) q.x 1 rng
  let nextX := sx.1
  let sy := sampleSlice ops (fun y => logP nextX y) q.y 1 (shift rng sx.2)
  let nextY := sy.1
  ⟨⟨nextX, nextY⟩, ⟨0, 0⟩, true, [⟨q.x, q.y⟩, ⟨nextX, q.y⟩, ⟨nextX, nextY⟩]⟩

/-! ### Diagnostics (`src/utils/statistics.js`)

The computations up to the final `Math.sqrt` are exact rational
arithmetic.  The value placed in the result object is represented
symbolically: the code returns either the literal `1`, `Infinity`, or
`Math.sqrt(ratio)`; `RVal.toEReal` interprets the symbol as the
extended real the JavaScript number denotes. -/

/-- The per-dimension value `calculateGelmanRubin` stores: `1` on the
degenerate branch, `Infinity` on the disagreeing-constants branch, or
`Math.sqrt` of the exact ratio `V_hat / W`. -/
inductive RVal where
  | one : RVal
  | inf : RVal
  | sqrtOf (ratio : ℚ) : RVal
  deriving Repr, DecidableEq

/-- The extended real a stored `RVal` denotes. -/
noncomputable def RVal.toEReal : RVal → EReal
  | RVal.one => 1
  | RVal.inf => ⊤
  | RVal.sqrtOf ratio => ((Real.sqrt (ratio : ℝ) : ℝ) : EReal)

/-- The helper `computeStats(values)` of `calculateGelmanRubin`: mean
with denominator `n` and sample variance with denominator `n - 1`,
where `n` is the common truncated length. -/
def computeStats (n : ℕ) (values : List ℚ) : ℚ × ℚ :=
  let sum := values.foldl (· + ·) 0
  let mean := sum / (n : ℚ)
  let variance := (values.foldl (fun acc val => acc + (val - mean) ^ 2) 0) / ((n : ℚ) - 1)
  (mean, variance)

/-- The per-dimension body of `calculateGelmanRubin`: per-chain stats on
the first `n` samples, between- and within-chain variances, `V_hat`,
and the `W === 0` special case. -/
def gelmanRubinDim (n m : ℕ) (chains : List (List ℚ)) : RVal :=
  let chainStats := chains.map (fun chain => computeStats n (chain.take n))
  let overallMean := (chainStats.foldl (fun acc s => acc + s.1) 0) / (m : ℚ)
  let B := ((n : ℚ) / ((m : ℚ) - 1)) *
    chainStats.foldl (fun acc s => acc + (s.1 - overallMean) ^ 2) 0
  let W := (chainStats.foldl (fun acc s => acc + s.2) 0) / (m : ℚ)
  let Vhat := (((n : ℚ) - 1) / (n : ℚ)) * W + (1 / (n : ℚ)) * B
  if W = 0 then (if B = 0 then RVal.one else RVal.inf)
  else RVal.sqrtOf (Vhat / W)

/-- The function `calculateGelmanRubin(chains)`: `null` for fewer than 2
chains or any chain shorter than 2, truncation to the minimum length,
then the per-dimension computation for `x` and `y`. -/
def calculateGelmanRubin (chains : List (List (Pt ℚ))) : Option (RVal × RVal) :=
  if chains.length < 2 then none
  else if chains.any (fun c => decide (c.length < 2)) then none
  else
    match (chains.map List.length).min? with
    | none => none
    | some n =>
      if n < 2 then none
      else
        let m := chains.length
        some (gelmanRubinDim n m (chains.map (fun c => c.map Pt.x)),
              gelmanRubinDim n m (chains.map (fun c => c.map Pt.y)))

/-- The per-chain mean and lag-0 autocovariance (denominator `n`) of
`calculateESS`. -/
def essStats (n : ℕ) (chainOps : List ℚ) : ℚ × ℚ :=
  let sum := chainOps.foldl (· + ·) 0
  let mean := sum / (n : ℚ)
  let gamma0 := (chainOps.foldl (fun acc val => acc + (val - mean) ^ 2) 0) / (n : ℚ)
  (mean, gamma0)

/-- The inner sum of `getRhoK`:
`sum_{t=0}^{n-k-1} (x_t - mu)(x_{t+k} - mu)`. -/
def sumCross (chainOps : List ℚ) (mu : ℚ) (k n : ℕ) : ℚ :=
  (List.range (n - k)).foldl
    (fun acc t => acc + (chainOps.getD t 0 - mu) * (chainOps.getD (t + k) 0 - mu)) 0

/-- The closure `getRhoK(k)` of `calculateESS`: pooled lag-`k`
autocovariance (denominator `n`, averaged over chains) divided by the
pooled lag-0 autocovariance. -/
def getRhoK (n m : ℕ) (values2D : List (List ℚ)) (stats : List (ℚ × ℚ))
    (gamma0Pooled : ℚ) (k : ℕ) : ℚ :=
  let sumGammaK := (values2D.zip stats).foldl
    (fun acc p => acc + sumCross p.1 p.2.1 k n / (n : ℚ)) 0
  let gammaK := sumGammaK / (m : ℚ)
  gammaK / gamma0Pooled

/-- The accumulation loop of `calculateESS` as written in the source:
`while (2 * t < maxLag)` compute `Gamma_t = rho(2t-1) + rho(2t)`, add it
and continue while it is positive.  Fuel is an upper bound on the
remaining iterations (the caller passes `n`, which the cap keeps the
loop well below). -/
def essLoop (rho : ℕ → ℚ) (maxLag : ℕ) : ℕ → ℕ → ℚ → ℚ
  | 0, _, acc => acc
  | fuel + 1, t, acc =>
    if 2 * t < maxLag then
      let gammaT := rho (2 * t - 1) + rho (2 * t)
      if gammaT > 0 then essLoop rho maxLag fuel (t + 1) (acc + gammaT) else acc
    else acc

/-- The accumulation loop as claim C6 words it: stop at the first `t`
where `Gamma_t <= 0` or `2t` exceeds `maxLag = n / 2` (so `t` with
`2t = maxLag` is still accumulated). -/
def essLoopSpec (rho : ℕ → ℚ) (maxLag : ℕ) : ℕ → ℕ → ℚ → ℚ
  | 0, _, acc => acc
  | fuel + 1, t, acc =>
    if 2 * t > maxLag then acc
    else
      let gammaT := rho (2 * t - 1) + rho (2 * t)
      if gammaT ≤ 0 then acc
      else essLoopSpec rho maxLag fuel (t + 1) (acc + gammaT)

/-- The accumulation loop as the amended claim words it: stop at the
first `t` where `Gamma_t <= 0` or `2t` reaches or exceeds
`maxLag = n / 2`. -/
def essLoopAmended (rho : ℕ → ℚ) (maxLag : ℕ) : ℕ → ℕ → ℚ → ℚ
  | 0, _, acc => acc
  | fuel + 1, t, acc =>
    if 2 * t ≥ maxLag then acc
    else
      let gammaT := rho (2 * t - 1) + rho (2 * t)
      if gammaT ≤ 0 then acc
      else essLoopAmended rho maxLag fuel (t + 1) (acc + gammaT)

/-- The per-dimension body of `calculateESS`: pooled lag-0
autocovariance with early return `N` when it vanishes, Geyer
accumulation, `tau = 1 + 2 * sumRho`, and `min(N / tau, N)`. -/
def essDim (n m : ℕ) (values2D : List (List ℚ)) : ℚ :=
  let totalSamples := m * n
  let stats := values2D.map (essStats n)
  let gamma0Pooled := (stats.foldl (fun acc s => acc + s.2) 0) / (m : ℚ)
  if gamma0Pooled = 0 then (totalSamples : ℚ)
  else
    let rho := getRhoK n m values2D stats gamma0Pooled
    let maxLag := n / 2
    let sumRho := essLoop rho maxLag n 1 0
    let tauInt := 1 + 2 * sumRho
    min ((totalSamples : ℚ) / tauInt) (totalSamples : ℚ)

/-- The per-dimension ESS computation with the loop as claim C6 words
it (stop only once `2t` strictly exceeds `n / 2`). -/
def essDimSpec (n m : ℕ) (values2D : List (List ℚ)) : ℚ :=
  let totalSamples := m * n
  let stats := values2D.map (essStats n)
  let gamma0Pooled := (stats.foldl (fun acc s => acc + s.2) 0) / (m : ℚ)
  if gamma0Pooled = 0 then (totalSamples : ℚ)
  else
    let rho := getRhoK n m values2D stats gamma0Pooled
    let maxLag := n / 2
    let sumRho := essLoopSpec rho maxLag n 1 0
    let tauInt := 1 + 2 * sumRho
    min ((totalSamples : ℚ) / tauInt) (totalSamples : ℚ)

/-- The per-dimension ESS computation with the loop as the amended
claim words it (stop once `2t` reaches `n / 2`). -/
def essDimAmended (n m : ℕ) (values2D : List (List ℚ)) : ℚ :=
  let totalSamples := m * n
  let stats := values2D.map (essStats n)
  let gamma0Pooled := (stats.foldl (fun acc s => acc + s.2) 0) / (m : ℚ)
  if gamma0Pooled = 0 then (totalSamples : ℚ)
  else
    let rho := getRhoK n m values2D stats gamma0Pooled
    let maxLag := n / 2
    let sumRho := essLoopAmended rho maxLag n 1 0
    let tauInt := 1 + 2 * sumRho
    min ((totalSamples : ℚ) / tauInt) (totalSamples : ℚ)

/-- The function `calculateESS(chains)` as written in the source:
`null` for no chains or any chain shorter than 2, truncation to the
minimum length, then the per-dimension computation for `x` and `y`. -/
def calculateESS (chains : List (List (Pt ℚ))) : Option (ℚ × ℚ) :=
  if chains.length < 1 then none
  else if chains.any (fun c => decide (c.length < 2)) then none
  else
    match (chains.map List.length).min? with
    | none => none
    | some n =>
      if n < 2 then none
      else
        let m := chains.length
        some (essDim n m (chains.map (fun c => (c.take n).map Pt.x)),
              essDim n m (chains.map (fun c => (c.take n).map Pt.y)))

/-- The ESS function with the accumulation loop exactly as claim C6
words it, kept for comparison with the source version. -/
def calculateESSSpec (chains : List (List (Pt ℚ))) : Option (ℚ × ℚ) :=
  if chains.length < 1 then none
  else if chains.any (fun c => decide (c.length < 2)) then none
  else
    match (chains.map List.length).min? with
    | none => none
    | some n =>
      if n < 2 then none
      else
        let m := chains.length
        some (essDimSpec n m (chains.map (fun c => (c.take n).map Pt.x)),
              essDimSpec n m (chains.map (fun c => (c.take n).map Pt.y)))

/-- The ESS function with the accumulation loop as the amended claim
words it. -/
def calculateESSAmended (chains : List (List (Pt ℚ))) : Option (ℚ × ℚ) :=
  if chains.length < 1 then none
  else if chains.any (fun c => decide (c.length < 2)) then none
  else
    match (chains.map List.length).min? with
    | none => none
    | some n =>
      if n < 2 then none
      else
        let m := chains.length
        some (essDimAmended n m (chains.map (fun c => (c.take n).map Pt.x)),
              essDimAmended n m (chains.map (fun c => (c.take n).map Pt.y)))

/-- Claim C7, code evaluation: with seed `2463401483` the very first
`random()` call returns exactly `0`, because the updated state is
`2463401483 + 0x6D2B79F5 = 2^32 ≡ 0` and the Mulberry32 mix fixes `0`.
So the `u1` consumed by the first `randn()` call is exactly `0` and
`randn` evaluates `Math.log(0) = -Infinity`: the guard the specification
describes does not exist in the code. -/
theorem randn_u1_zero_at_seed :
    (SeededRandom.create 2463401483).randnDraws.1.1 = 0 := by
  have h : mulberryMix ((2463401483 + MULBERRY_INC) % UINT32) = 0 := by decide
  simp [SeededRandom.randnDraws, SeededRandom.random, SeededRandom.create, h]

/-- The leapfrog loop records one position per iteration. -/
theorem simulate_traj_length {K : Type} [LinearOrderedField K] (epsilon : K)
    (gradU : K → K → Pt K) :
    ∀ (L : ℕ) (q p : Pt K), (simulate epsilon gradU L q p).2.2.length = L := by
  intro L
  induction L with
  | zero => intro q p; rfl
  | succ i ih =>
    intro q p
    simp only [simulate, List.length_cons, ih]

/-- The last entry of the recorded trajectory (start point included) is
the final position of the leapfrog loop. -/
theorem simulate_traj_getLast {K : Type} [LinearOrderedField K] (epsilon : K)
    (gradU : K → K → Pt K) :
    ∀ (L : ℕ) (q p : Pt K),
      (q :: (simulate epsilon gradU L q p).2.2).getLast? =
        some (simulate epsilon gradU L q p).1 := by
  intro L
  induction L with
  | zero => intro q p; rfl
  | succ i ih =>
    intro q p
    simp only [simulate]
    rw [List.getLast?_cons_cons]
    exact ih _ _

/-- Claim C1: one HMC step returns the proposal trajectory, which has
`L + 1` points, starts at the current position and ends at the proposed
endpoint; on acceptance the step returns the proposed endpoint together
with the negated final momentum, on rejection the original position and
zero momentum. -/
theorem hmc_step_result_contract {K : Type} [LinearOrderedField K]
    (ops : MathOps K) (q : Pt K) (epsilon : K) (L : ℕ) (U : K → K → K)
    (gradU : K → K → Pt K) (rng : ℕ → K) :
    (hmcStep ops q epsilon L U gradU rng).trajectory =
      (generateProposal ops q epsilon L U gradU rng).trajectory ∧
    (hmcStep ops q epsilon L U gradU rng).trajectory.length = L + 1 ∧
    (hmcStep ops q epsilon L U gradU rng).trajectory.head? = some q ∧
    (hmcStep ops q epsilon L U gradU rng).trajectory.getLast? =
      some (generateProposal ops q epsilon L U gradU rng).q_proposed ∧
    (generateProposal ops q epsilon L U gradU rng).p_proposed =
      Pt.neg (simulate epsilon gradU L q
        ⟨randn ops (rng 0) (rng 1), randn ops (rng 2) (rng 3)⟩).2.1 ∧
    (hmcStep ops q epsilon L U gradU rng).q =
      (if (hmcStep ops q epsilon L U gradU rng).accepted then
        (generateProposal ops q epsilon L U gradU rng).q_proposed else q) ∧
    (hmcStep ops q epsilon L U gradU rng).p =
      (if (hmcStep ops q epsilon L U gradU rng).accepted then
        (generateProposal ops q epsilon L U gradU rng).p_proposed
       else ⟨0, 0⟩) := by
  have htraj : (generateProposal ops q epsilon L U gradU rng).trajectory =
      q :: (simulate epsilon gradU L q
        ⟨randn ops (rng 0) (rng 1), randn ops (rng 2) (rng 3)⟩).2.2 := rfl
  by_cases h : rng 4 < min 1 (ops.exp
      (-((generateProposal ops q epsilon L U gradU rng).H_proposed -
         (generateProposal ops q epsilon L U gradU rng).H_initial)))
  · have hstep : hmcStep ops q epsilon L U gradU rng =
        ⟨(generateProposal ops q epsilon L U gradU rng).q_proposed,
         (generateProposal ops q epsilon L U gradU rng).p_proposed, true,
         (generateProposal ops q epsilon L U gradU rng).trajectory⟩ := by
      simp only [hmcStep, h]
      rfl
    rw [hstep]
    refine ⟨rfl, ?_, ?_, ?_, rfl, rfl, rfl⟩
    · simp [htraj, simulate_traj_length]
    · simp [htraj]
    · rw [htraj]; exact simulate_traj_getLast epsilon gradU L q _
  · have hstep : hmcStep ops q epsilon L U gradU rng =
        ⟨q, ⟨0, 0⟩, false,
         (generateProposal ops q epsilon L U gradU rng).trajectory⟩ := by
      simp only [hmcStep, h]
      rfl
    rw [hstep]
    refine ⟨rfl, ?_, ?_, ?_, rfl, rfl, rfl⟩
    · simp [htraj, simulate_traj_length]
    · simp [htraj]
    · rw [htraj]; exact simulate_traj_getLast epsilon gradU L q _

/-- One leapfrog step run again from the result with negated momentum
undoes the step exactly (momentum comes back negated). -/
theorem leapfrogStep_reverse {K : Type} [LinearOrderedField K]
    (q p : Pt K) (epsilon : K) (gradU : K → K → Pt K) :
    leapfrogStep (leapfrogStep q p epsilon gradU).1
      (Pt.neg (leapfrogStep q p epsilon gradU).2) epsilon gradU =
      (q, Pt.neg p) := by
  obtain ⟨qx, qy⟩ := q
  obtain ⟨px, py⟩ := p
  simp only [leapfrogStep, Pt.neg, Prod.mk.injEq, Pt.mk.injEq]
  constructor
  · constructor <;> ring_nf
  · constructor <;> ring_nf

/-- Unfold `leapfrogIter` at the front instead of at the back. -/
theorem leapfrogIter_succ_front {K : Type} [LinearOrderedField K]
    (epsilon : K) (gradU : K → K → Pt K) :
    ∀ (n : ℕ) (s : Pt K × Pt K),
      leapfrogIter epsilon gradU (n + 1) s =
        leapfrogIter epsilon gradU n (leapfrogStep s.1 s.2 epsilon gradU) := by
  intro n
  induction n with
  | zero => intro s; rfl
  | succ m ih =>
    intro s
    show leapfrogStep (leapfrogIter epsilon gradU (m + 1) s).1
        (leapfrogIter epsilon gradU (m + 1) s).2 epsilon gradU = _
    rw [ih s]
    rfl

/-- Claim C2: a leapfrog step followed by a step with negated momentum
returns the original position with negated momentum, and consequently
`L` forward steps followed by `L` backward steps with negated momentum
return exactly to the start (momentum negated once more); over exact
arithmetic the floating-point tolerance is met with equality. -/
theorem leapfrog_reversibility (q p : Pt ℝ) (epsilon : ℝ)
    (gradU : ℝ → ℝ → Pt ℝ) (L : ℕ) :
    leapfrogStep (leapfrogStep q p epsilon gradU).1
      (Pt.neg (leapfrogStep q p epsilon gradU).2) epsilon gradU =
      (q, Pt.neg p) ∧
    leapfrogIter epsilon gradU L
      (negMom (leapfrogIter epsilon gradU L (q, p))) = (q, Pt.neg p) := by
  refine ⟨leapfrogStep_reverse q p epsilon gradU, ?_⟩
  have key : ∀ (n : ℕ) (s : Pt ℝ × Pt ℝ),
      leapfrogIter epsilon gradU n (negMom (leapfrogIter epsilon gradU n s)) =
        negMom s := by
    intro n
    induction n with
    | zero =>
      intro s
      simp [leapfrogIter, negMom, Pt.neg]
    | succ m ih =>
      intro s
      have h1 : leapfrogIter epsilon gradU (m + 1) s =
          leapfrogStep (leapfrogIter epsilon gradU m s).1
            (leapfrogIter epsilon gradU m s).2 epsilon gradU := rfl
      rw [h1, leapfrogIter_succ_front]
      have h2 : leapfrogStep
          (negMom (leapfrogStep (leapfrogIter epsilon gradU m s).1
            (leapfrogIter epsilon gradU m s).2 epsilon gradU)).1
          (negMom (leapfrogStep (leapfrogIter epsilon gradU m s).1
            (leapfrogIter epsilon gradU m s).2 epsilon gradU)).2
          epsilon gradU =
          negMom (leapfrogIter epsilon gradU m s) := by
        exact leapfrogStep_reverse _ _ epsilon gradU
      rw [h2]
      exact ih s
  exact key L (q, p)

/-- The first stepping-out loop runs at most its iteration budget. -/
theorem stepOutDown_count_le {K : Type} [LinearOrderedField K]
    (logDensityFn : K → K) (logY w : K) :
    ∀ (fuel : ℕ) (l : K), (stepOutDown logDensityFn logY w fuel l).2 ≤ fuel := by
  intro fuel
  induction fuel with
  | zero => intro l; exact Nat.le_refl 0
  | succ f ih =>
    intro l
    by_cases h : logDensityFn l > logY
    · simp only [stepOutDown, if_pos h]
      exact Nat.succ_le_succ (ih (l - w))
    · simp only [stepOutDown, if_neg h]
      exact Nat.zero_le _

/-- The second stepping-out loop runs at most its iteration budget. -/
theorem stepOutUp_count_le {K : Type} [LinearOrderedField K]
    (logDensityFn : K → K) (logY w : K) :
    ∀ (fuel : ℕ) (r : K), (stepOutUp logDensityFn logY w fuel r).2 ≤ fuel := by
  intro fuel
  induction fuel with
  | zero => intro r; exact Nat.le_refl 0
  | succ f ih =>
    intro r
    by_cases h : logDensityFn r > logY
    · simp only [stepOutUp, if_pos h]
      exact Nat.succ_le_succ (ih (r + w))
    · simp only [stepOutUp, if_neg h]
      exact Nat.zero_le _

/-- The shrinkage loop consumes at most one uniform draw per unit of
iteration budget. -/
theorem shrink_idx_le {K : Type} [LinearOrderedField K]
    (logDensityFn : K → K) (logY x0 : K) (rng : ℕ → K) :
    ∀ (fuel : ℕ) (l r : K) (i : ℕ),
      (shrink logDensityFn logY x0 rng fuel l r i).2 ≤ i + fuel := by
  intro fuel
  induction fuel with
  | zero => intro l r i; simp [shrink]
  | succ f ih =>
    intro l r i
    simp only [shrink]
    by_cases h1 : logDensityFn (l + rng i * (r - l)) ≥ logY
    · simp only [if_pos h1]
      omega
    · simp only [if_neg h1]
      by_cases h2 : l + rng i * (r - l) < x0
      · simp only [if_pos h2]
        calc (shrink logDensityFn logY x0 rng f (l + rng i * (r - l)) r (i + 1)).2
            ≤ (i + 1) + f := ih _ _ _
          _ ≤ i + (f + 1) := by omega
      · simp only [if_neg h2]
        calc (shrink logDensityFn logY x0 rng f l (l + rng i * (r - l)) (i + 1)).2
            ≤ (i + 1) + f := ih _ _ _
          _ ≤ i + (f + 1) := by omega

/-- A point the shrinkage loop accepts lies on or above the slice
level. -/
theorem shrink_accept_level {K : Type} [LinearOrderedField K]
    (logDensityFn : K → K) (logY x0 : K) (rng : ℕ → K) :
    ∀ (fuel : ℕ) (l r : K) (i : ℕ) (x1 : K) (j : ℕ),
      shrink logDensityFn logY x0 rng fuel l r i = (some x1, j) →
      logDensityFn x1 ≥ logY := by
  intro fuel
  induction fuel with
  | zero =>
    intro l r i x1 j h
    simp [shrink] at h
  | succ f ih =>
    intro l r i x1 j h
    simp only [shrink] at h
    by_cases h1 : logDensityFn (l + rng i * (r - l)) ≥ logY
    · rw [if_pos h1] at h
      obtain ⟨h2, _⟩ := Prod.mk.injEq .. ▸ h
      cases h
      exact h1
    · rw [if_neg h1] at h
      by_cases h2 : l + rng i * (r - l) < x0
      · rw [if_pos h2] at h
        exact ih _ _ _ _ _ h
      · rw [if_neg h2] at h
        exact ih _ _ _ _ _ h

/-- Claim C3: the slice sampler performs at most 100 stepping-out
iterations in each direction, consumes at most 1000 shrinkage draws
(its cursor, two initial draws included, never passes index 1002), and
always returns a value: either the fallback `x0` or an accepted point
whose log-density reaches the slice level. -/
theorem sampleSlice_bounds_and_level {K : Type} [LinearOrderedField K]
    (ops : MathOps K) (logDensityFn : K → K) (x0 w : K) (rng : ℕ → K) :
    (stepOutDown logDensityFn (sliceLogY ops logDensityFn x0 rng) w 100
      (x0 - rng 1 * w)).2 ≤ 100 ∧
    (stepOutUp logDensityFn (sliceLogY ops logDensityFn x0 rng) w 100
      (x0 + (w - rng 1 * w))).2 ≤ 100 ∧
    (sampleSlice ops logDensityFn x0 w rng).2 ≤ 1002 ∧
    ((sampleSlice ops logDensityFn x0 w rng).1 = x0 ∨
      logDensityFn (sampleSlice ops logDensityFn x0 w rng).1 ≥
        sliceLogY ops logDensityFn x0 rng) := by
  refine ⟨stepOutDown_count_le _ _ _ _ _, stepOutUp_count_le _ _ _ _ _, ?_, ?_⟩
  all_goals
    rcases hs : shrink logDensityFn (sliceLogY ops logDensityFn x0 rng) x0 rng
        1000
        (stepOutDown logDensityFn (sliceLogY ops logDensityFn x0 rng) w 100
          (x0 - rng 1 * w)).1
        (stepOutUp logDensityFn (sliceLogY ops logDensityFn x0 rng) w 100
          (x0 + (w - rng 1 * w))).1 2 with ⟨o, j⟩
  · have hj : j ≤ 2 + 1000 := by
      have := shrink_idx_le logDensityFn (sliceLogY ops logDensityFn x0 rng)
        x0 rng 1000
        (stepOutDown logDensityFn (sliceLogY ops logDensityFn x0 rng) w 100
          (x0 - rng 1 * w)).1
        (stepOutUp logDensityFn (sliceLogY ops logDensityFn x0 rng) w 100
          (x0 + (w - rng 1 * w))).1 2
      rw [hs] at this
      exact this
    cases o with
    | none => simp only [sampleSlice, hs]; omega
    | some x1 => simp only [sampleSlice, hs]; omega
  · cases o with
    | none =>
      left
      simp only [sampleSlice, hs]
    | some x1 =>
      right
      have := shrink_accept_level logDensityFn
        (sliceLogY ops logDensityFn x0 rng) x0 rng 1000 _ _ _ _ _ hs
      simp only [sampleSlice, hs]
      exact this

/-- Claim C4: a Gibbs step is always accepted, carries zero momentum,
returns the pair of successive slice-sampler updates, and its
trajectory is exactly the 3-point Manhattan path. -/
theorem gibbs_step_manhattan {K : Type} [LinearOrderedField K]
    (ops : MathOps K) (q : Pt K) (logP : K → K → K) (rng : ℕ → K) :
    GibbsSampler.step ops q logP rng =
      ⟨⟨(sampleSlice ops (fun x => logP x q.y) q.x 1 rng).1,
        (sampleSlice ops
          (fun y => logP (sampleSlice ops (fun x => logP x q.y) q.x 1 rng).1 y)
          q.y 1
          (shift rng (sampleSlice ops (fun x => logP x q.y) q.x 1 rng).2)).1⟩,
       ⟨0, 0⟩, true,
       [q,
        ⟨(sampleSlice ops (fun x => logP x q.y) q.x 1 rng).1, q.y⟩,
        ⟨(sampleSlice ops (fun x => logP x q.y) q.x 1 rng).1,
         (sampleSlice ops
           (fun y => logP (sampleSlice ops (fun x => logP x q.y) q.x 1 rng).1 y)
           q.y 1
           (shift rng (sampleSlice ops (fun x => logP x q.y) q.x 1 rng).2)).1⟩]⟩ := rfl

/-- The degenerate branch of `gelmanRubinDim` on two identical constant
chains: within- and between-chain variance both vanish, so the code
returns the literal `1`, not `sqrt((n-1)/n)`.  Claim C5 fails at the
concrete input of two identical constant chains of length 2, where
`sqrt((n-1)/n) = sqrt(1/2)` differs from the returned value `1`. -/
theorem gelmanRubin_constant_chains_counterexample :
    calculateGelmanRubin [[⟨0, 0⟩, ⟨0, 0⟩], [⟨0, 0⟩, ⟨0, 0⟩]] =
      some (RVal.one, RVal.one) ∧
    RVal.toEReal RVal.one ≠ RVal.toEReal (RVal.sqrtOf (((2 : ℚ) - 1) / 2)) := by
  constructor
  · norm_num [calculateGelmanRubin, gelmanRubinDim, computeStats, List.min?]
  · have hlt : Real.sqrt (((1 : ℚ) / 2 : ℚ) : ℝ) < 1 := by
      rw [show (1 : ℝ) = Real.sqrt 1 by simp]
      apply Real.sqrt_lt_sqrt <;> norm_num
    have h12 : (((2 : ℚ) - 1) / 2) = (1 : ℚ) / 2 := by norm_num
    simp only [RVal.toEReal, h12]
    intro hcontra
    rw [show (1 : EReal) = ((1 : ℝ) : EReal) by norm_num] at hcontra
    have := EReal.coe_eq_coe_iff.mp hcontra
    linarith

/-- The per-dimension Gelman-Rubin value on two copies of one
non-constant chain: the between-chain variance vanishes and the ratio
collapses to `(n-1)/n` exactly. -/
theorem gelmanRubinDim_dup (n : ℕ) (hn : 2 ≤ n) (v : List ℚ)
    (hlen : v.length = n) (hvar : (computeStats n v).2 ≠ 0) :
    gelmanRubinDim n 2 [v, v] = RVal.sqrtOf (((n : ℚ) - 1) / (n : ℚ)) := by
  subst hlen
  have hcast : (0 : ℚ) < (v.length : ℚ) := by
    have : 0 < v.length := by omega
    exact_mod_cast this
  simp only [gelmanRubinDim, List.map_cons, List.map_nil, List.take_length,
    List.foldl_cons, List.foldl_nil]
  rw [if_neg]
  · congr 1
    field_simp
    ring
  · intro hW
    apply hvar
    have : (0 + (computeStats v.length v).2 + (computeStats v.length v).2) =
        2 * (computeStats v.length v).2 := by ring
    rw [this] at hW
    have h2 : (2 : ℚ) ≠ 0 := by norm_num
    field_simp at hW
    linarith

/-- Claim C5 amended: two identical chains of common length `n ≥ 2`
whose per-dimension sample variance is nonzero yield exactly
`sqrt((n-1)/n)` in both dimensions (identical constant chains take the
degenerate branch and return `1` instead). -/
theorem gelmanRubin_identical_chains (c : List (Pt ℚ)) (hn : 2 ≤ c.length)
    (hx : (computeStats c.length (c.map Pt.x)).2 ≠ 0)
    (hy : (computeStats c.length (c.map Pt.y)).2 ≠ 0) :
    calculateGelmanRubin [c, c] =
      some (RVal.sqrtOf (((c.length : ℚ) - 1) / (c.length : ℚ)),
            RVal.sqrtOf (((c.length : ℚ) - 1) / (c.length : ℚ))) := by
  have hguard1 : ¬([c, c].length < 2) := by simp
  have hguard2 : ¬([c, c].any (fun ch => decide (ch.length < 2)) = true) := by
    simp only [List.any_cons, List.any_nil, Bool.or_false, Bool.or_self,
      decide_eq_true_eq]
    omega
  have hmin : (List.map List.length [c, c]).min? = some c.length := by
    simp [List.min?]
  unfold calculateGelmanRubin
  rw [if_neg hguard1, if_neg hguard2, hmin]
  dsimp only
  rw [if_neg (by omega : ¬(c.length < 2))]
  have hx' := gelmanRubinDim_dup c.length hn (c.map Pt.x) (by simp) hx
  have hy' := gelmanRubinDim_dup c.length hn (c.map Pt.y) (by simp) hy
  simp only [List.map_cons, List.map_nil, List.length_cons, List.length_nil]
  rw [show (0 : ℕ) + 1 + 1 = 2 from rfl, hx', hy']

/-- Witness for the amended claim C5 at the concrete identical chains
`[(0,0), (1,1)]`, whose per-dimension sample variance is `1/2`. -/
theorem gelmanRubin_identical_chains_witness :
    2 ≤ ([⟨0, 0⟩, ⟨1, 1⟩] : List (Pt ℚ)).length ∧
    (computeStats 2 (([⟨0, 0⟩, ⟨1, 1⟩] : List (Pt ℚ)).map Pt.x)).2 ≠ 0 ∧
    calculateGelmanRubin [[⟨0, 0⟩, ⟨1, 1⟩], [⟨0, 0⟩, ⟨1, 1⟩]] =
      some (RVal.sqrtOf (1 / 2), RVal.sqrtOf (1 / 2)) := by
  refine ⟨by norm_num, ?_, ?_⟩
  · norm_num [computeStats]
  · have h := gelmanRubin_identical_chains [⟨0, 0⟩, ⟨1, 1⟩] (by norm_num)
      (by norm_num [computeStats]) (by norm_num [computeStats])
    norm_num at h
    convert h using 2

/-- Claim C6 counterexample: on one chain of length 5 the source loop
condition `2t < floor(n/2)` never fires, so `calculateESS` returns the
full sample count 5, while the claimed stopping rule (stop only once
`2t` exceeds `floor(n/2)`) accumulates the positive `Gamma_1` and
returns `25/8`. -/
theorem calculateESS_boundary_counterexample :
    calculateESS [[⟨1, 1⟩, ⟨2, 2⟩, ⟨3, 3⟩, ⟨4, 4⟩, ⟨5, 5⟩]] = some (5, 5) ∧
    calculateESSSpec [[⟨1, 1⟩, ⟨2, 2⟩, ⟨3, 3⟩, ⟨4, 4⟩, ⟨5, 5⟩]] =
      some (25 / 8, 25 / 8) ∧
    (5 : ℚ) ≠ 25 / 8 := by
  refine ⟨?_, ?_, by norm_num⟩
  · norm_num [calculateESS, essDim, essStats, essLoop, getRhoK, sumCross,
      List.min?, List.range_succ]
  · norm_num [calculateESSSpec, essDimSpec, essStats, essLoopSpec, getRhoK,
      sumCross, List.min?, List.range_succ]

/-- The source accumulation loop agrees everywhere with the loop worded
as in the amended claim (stop once `2t` reaches `floor(n/2)`). -/
theorem essLoop_eq_amended (rho : ℕ → ℚ) (maxLag : ℕ) :
    ∀ (fuel t : ℕ) (acc : ℚ),
      essLoop rho maxLag fuel t acc = essLoopAmended rho maxLag fuel t acc := by
  intro fuel
  induction fuel with
  | zero => intro t acc; rfl
  | succ f ih =>
    intro t acc
    simp only [essLoop, essLoopAmended]
    by_cases h : 2 * t < maxLag
    · have h' : ¬(2 * t ≥ maxLag) := by omega
      rw [if_pos h, if_neg h']
      by_cases hg : rho (2 * t - 1) + rho (2 * t) > 0
      · have hg' : ¬(rho (2 * t - 1) + rho (2 * t) ≤ 0) := by linarith
        rw [if_pos hg, if_neg hg']
        exact ih _ _
      · have hg' : rho (2 * t - 1) + rho (2 * t) ≤ 0 := by linarith
        rw [if_neg hg, if_pos hg']
    · have h' : 2 * t ≥ maxLag := by omega
      rw [if_neg h, if_pos h']

/-- The per-dimension ESS of the source equals the amended-claim
version. -/
theorem essDim_eq_amended (n m : ℕ) (values2D : List (List ℚ)) :
    essDim n m values2D = essDimAmended n m values2D := by
  simp only [essDim, essDimAmended, essLoop_eq_amended]

/-- Claim C6 amended: `calculateESS` behaves exactly as the claim says
with the stopping boundary corrected from `2t` exceeding `floor(n/2)`
to `2t` reaching it: it accumulates `Gamma_t = rho(2t-1) + rho(2t)`
from `t = 1` while `Gamma_t > 0` and `2t < floor(n/2)`, sets
`tau = 1 + 2 * sum`, returns `min(N/tau, N)`, and returns `N` for a
dimension whose pooled lag-0 autocovariance vanishes. -/
theorem calculateESS_matches_amended (chains : List (List (Pt ℚ))) :
    calculateESS chains = calculateESSAmended chains := by
  simp only [calculateESS, calculateESSAmended, essDim_eq_amended]

/-- Claim C8: with `L = 0` the proposal is the start position with the
freshly sampled momentum negated, the energy difference is exactly
zero, so the acceptance probability is `min(1, exp(0)) = 1` and any
uniform draw below 1 accepts; the trajectory is the single point `q`. -/
theorem hmc_L0_always_accepted (q : Pt ℝ) (epsilon : ℝ) (U : ℝ → ℝ → ℝ)
    (gradU : ℝ → ℝ → Pt ℝ) (rng : ℕ → ℝ) (h : rng 4 < 1) :
    (generateProposal ⟨Real.sqrt, Real.log, Real.cos, Real.exp, Real.pi⟩
      q epsilon 0 U gradU rng).q_proposed = q ∧
    (generateProposal ⟨Real.sqrt, Real.log, Real.cos, Real.exp, Real.pi⟩
      q epsilon 0 U gradU rng).p_proposed =
      Pt.neg ⟨randn ⟨Real.sqrt, Real.log, Real.cos, Real.exp, Real.pi⟩
        (rng 0) (rng 1),
        randn ⟨Real.sqrt, Real.log, Real.cos, Real.exp, Real.pi⟩
        (rng 2) (rng 3)⟩ ∧
    (generateProposal ⟨Real.sqrt, Real.log, Real.cos, Real.exp, Real.pi⟩
      q epsilon 0 U gradU rng).H_proposed -
      (generateProposal ⟨Real.sqrt, Real.log, Real.cos, Real.exp, Real.pi⟩
        q epsilon 0 U gradU rng).H_initial = 0 ∧
    (hmcStep ⟨Real.sqrt, Real.log, Real.cos, Real.exp, Real.pi⟩
      q epsilon 0 U gradU rng).accepted = true ∧
    (hmcStep ⟨Real.sqrt, Real.log, Real.cos, Real.exp, Real.pi⟩
      q epsilon 0 U gradU rng).trajectory = [q] ∧
    (hmcStep ⟨Real.sqrt, Real.log, Real.cos, Real.exp, Real.pi⟩
      q epsilon 0 U gradU rng).q = q := by
  have hd : (generateProposal ⟨Real.sqrt, Real.log, Real.cos, Real.exp, Real.pi⟩
      q epsilon 0 U gradU rng).H_proposed -
      (generateProposal ⟨Real.sqrt, Real.log, Real.cos, Real.exp, Real.pi⟩
        q epsilon 0 U gradU rng).H_initial = 0 := by
    simp only [generateProposal, simulate]
    ring
  have hlt : rng 4 < min 1
      ((⟨Real.sqrt, Real.log, Real.cos, Real.exp, Real.pi⟩ : MathOps ℝ).exp
        (-((generateProposal ⟨Real.sqrt, Real.log, Real.cos, Real.exp, Real.pi⟩
          q epsilon 0 U gradU rng).H_proposed -
          (generateProposal ⟨Real.sqrt, Real.log, Real.cos, Real.exp, Real.pi⟩
            q epsilon 0 U gradU rng).H_initial))) := by
    rw [hd]
    simpa using h
  have hstep : hmcStep ⟨Real.sqrt, Real.log, Real.cos, Real.exp, Real.pi⟩
      q epsilon 0 U gradU rng =
      ⟨(generateProposal ⟨Real.sqrt, Real.log, Real.cos, Real.exp, Real.pi⟩
          q epsilon 0 U gradU rng).q_proposed,
       (generateProposal ⟨Real.sqrt, Real.log, Real.cos, Real.exp, Real.pi⟩
          q epsilon 0 U gradU rng).p_proposed, true,
       (generateProposal ⟨Real.sqrt, Real.log, Real.cos, Real.exp, Real.pi⟩
          q epsilon 0 U gradU rng).trajectory⟩ := by
    simp only [hmcStep, hlt]
    rfl
  refine ⟨rfl, rfl, hd, ?_, ?_, ?_⟩
  · rw [hstep]
  · rw [hstep]; rfl
  · rw [hstep]; rfl

/-- Witness for claim C8 at a concrete input: an all-1/2 uniform
stream on the standard normal potential accepts the zero-length
proposal. -/
theorem hmc_L0_always_accepted_witness :
    ((fun _ : ℕ => (1 : ℝ) / 2) 4 < 1) ∧
    (hmcStep ⟨Real.sqrt, Real.log, Real.cos, Real.exp, Real.pi⟩
      (⟨0, 0⟩ : Pt ℝ) 1 0 (fun _ _ => 0) (fun _ _ => ⟨0, 0⟩)
      (fun _ => 1 / 2)).accepted = true := by
  constructor
  · norm_num
  · exact (hmc_L0_always_accepted ⟨0, 0⟩ 1 (fun _ _ => 0) (fun _ _ => ⟨0, 0⟩)
      (fun _ => 1 / 2) (by norm_num)).2.2.2.1

/-- Claim C9: `setSeed(s)` resets an instance to the exact state of a
freshly constructed instance with seed `s`, so subsequent `random()`
and `randn()` sequences coincide with those of a fresh instance, and
two HMC runs configured with equal seeds, parameters, start position
and oracle produce identical step-result sequences. -/
theorem sampler_seed_determinism (r : SeededRandom) (s k : ℕ)
    (ops : MathOps ℚ) (epsilon : ℚ) (L : ℕ) (U : ℚ → ℚ → ℚ)
    (gradU : ℚ → ℚ → Pt ℚ) (q0 : Pt ℚ) (n s1 s2 : ℕ) (h : s1 = s2) :
    r.setSeed s = SeededRandom.create s ∧
    (r.setSeed s).randomN k = (SeededRandom.create s).randomN k ∧
    (r.setSeed s).randnN ops k = (SeededRandom.create s).randnN ops k ∧
    hmcChainSeeded ops epsilon L U gradU q0 s1 n =
      hmcChainSeeded ops epsilon L U gradU q0 s2 n := by
  subst h
  exact ⟨rfl, rfl, rfl, rfl⟩

/-- Witness for claim C9 at concrete seeds and a concrete one-step HMC
configuration. -/
theorem sampler_seed_determinism_witness :
    (42 : ℕ) = 42 ∧
    ((SeededRandom.create 7).setSeed 3 = SeededRandom.create 3 ∧
     ((SeededRandom.create 7).setSeed 3).randomN 1 =
       (SeededRandom.create 3).randomN 1 ∧
     ((SeededRandom.create 7).setSeed 3).randnN ⟨id, id, id, id, 0⟩ 1 =
       (SeededRandom.create 3).randnN ⟨id, id, id, id, 0⟩ 1 ∧
     hmcChainSeeded ⟨id, id, id, id, 0⟩ 1 1 (fun _ _ => 0)
       (fun _ _ => ⟨0, 0⟩) ⟨0, 0⟩ 42 1 =
       hmcChainSeeded ⟨id, id, id, id, 0⟩ 1 1 (fun _ _ => 0)
         (fun _ _ => ⟨0, 0⟩) ⟨0, 0⟩ 42 1) :=
  ⟨rfl, sampler_seed_determinism (SeededRandom.create 7) 3 1
    ⟨id, id, id, id, 0⟩ 1 1 (fun _ _ => 0) (fun _ _ => ⟨0, 0⟩) ⟨0, 0⟩ 1
    42 42 rfl⟩

/-- Claim C10: the constructor treats an explicit zero hyperparameter
as absent and installs the defaults `epsilon = 0.1`, `L = 10`, while
`setParams` assigns an explicit zero verbatim. -/
theorem hmc_zero_param_handling (seed : Option ℕ) (smp : HMCSampler) :
    (HMCSampler.create ⟨some 0, some 0⟩ seed).epsilon = 1 / 10 ∧
    (HMCSampler.create ⟨some 0, some 0⟩ seed).L = 10 ∧
    (HMCSampler.setParams smp ⟨some 0, none⟩).epsilon = 0 ∧
    (HMCSampler.setParams smp ⟨none, some 0⟩).L = 0 := by
  refine ⟨?_, ?_, rfl, rfl⟩ <;> simp [HMCSampler.create, jsOrDefault]
